import Mathlib

/-!
Verification of the SWAMPy core against its design document.

The embedding covers the two source files `src/simulate_metagenome.py` and
`src/art_runner.py`:

* the abundance normalization block of `__main__` (simulate_metagenome.py,
  lines 229-244), embedded over `ℚ`;
* the genome-description escaping of the genome-splitting step (line 250)
  and the character translation done by the shuffle step;
* the arity of the `art_illumina` context-manager call at STEP 4 (line 352)
  against the definition in art_runner.py (line 103);
* the event trace of `ArtIllumina.run` (seed draws, per-pair invocations,
  random-data generation, the two shuffle calls);
* the record-level semantics of `shuffle_fastq_file`
  (`paste | shuf --random-source | tr`), modelling `shuf` under a fixed
  random source as a permutation determined by the random bytes and the
  line count;
* the cleanup block of the `art_illumina` context manager (finally-clause);
* the read-count allocation stage (the `df.apply` calls of STEP 2); the
  sampler closures come from `read_model.get_amplicon_reads_sampler`, which
  is not part of the two source files, so they are modelled from the spec.

Machine integers are embedded as `Nat` with explicit `% 2 ^ w`; Python
floats are embedded as `ℚ`; fallible paths return `Except`.
-/

namespace Swampy

/-! ### Abundance normalization (simulate_metagenome.py, lines 229-244) -/

/-- Error taxonomy of the pipeline prefix: `invalidAbundance` is the
`exit(1)` taken when the abundance total is nonpositive; every failure of a
later stage is collapsed into `laterStage`. -/
inductive SimError where
  | invalidAbundance
  | laterStage
deriving DecidableEq

/-- The tolerance `1e-9` of `abs(sum(...) - 1) > 0.000000001`. -/
def abundanceTol : ℚ := 1 / 1000000000

/-- Embedding of the abundance-normalization block: if the total differs
from 1 by more than `1e-9` then a nonpositive total exits with an error and
a positive total rescales every weight by division; otherwise the mapping
is returned unchanged. The dict is embedded as an association list. -/
def normalizeAbundances (ab : List (String × ℚ)) : Except SimError (List (String × ℚ)) :=
  let total := (ab.map Prod.snd).sum
  if abundanceTol < |total - 1| then
    if total ≤ 0 then .error .invalidAbundance
    else .ok (ab.map fun p => (p.1, p.2 / total))
  else .ok ab

/-- The pipeline after the normalization block: `rest` stands for every
later stage (sampling, read generation). The boolean records whether the
later stages were entered at all. -/
def pipelineAfterNormalize (ab : List (String × ℚ))
    (rest : List (String × ℚ) → Except Unit Unit) : Except SimError Unit × Bool :=
  match normalizeAbundances ab with
  | .error e => (.error e, false)
  | .ok ab2 =>
    match rest ab2 with
    | .ok _ => (.ok (), true)
    | .error _ => (.error .laterStage, true)

/-! ### Genome-description escaping and the shuffle-step translation
(simulate_metagenome.py line 250; art_runner.py line 100) -/

/-- Embedding of `description.replace(" ", "&").replace("/", "&")`: two
character-wise passes (each `replace` has a single-character pattern, so it
acts character by character). Descriptions are embedded as `List Char`. -/
def escapeDescription (s : List Char) : List Char :=
  (s.map fun c => if c = ' ' then '&' else c).map fun c => if c = '/' then '&' else c

/-- Embedding of the character translation `tr '\t&' '\n/'` applied by the
shuffle step: tab maps to newline and ampersand maps to slash. -/
def trRestoreChar (c : Char) : Char :=
  if c = '\t' then '\n' else if c = '&' then '/' else c

/-! ### Arity of the STEP 4 call (simulate_metagenome.py line 352 against
art_runner.py line 103) -/

/-- A Python value passed as a call argument. -/
inductive PyVal where
  | str (s : String)
  | nat (n : Nat)
  | bool (b : Bool)
deriving DecidableEq

/-- The parameter list of `def art_illumina(outpath, output_filename_prefix,
read_length, seq_sys, verbose, temp, nreads)`: seven parameters, none with a
default. -/
def artIlluminaCtxParams : List String :=
  ["outpath", "output_filename_prefix", "read_length", "seq_sys", "verbose", "temp", "nreads"]

/-- The globals of `simulate_metagenome.py` that STEP 4 passes to
`art_illumina`. -/
structure MainConfig where
  outputFolder : String
  outputNameStem : String
  readLength : Nat
  seqSys : String
  verbose : Bool
deriving DecidableEq

/-- The argument list of the STEP 4 call
`art_illumina(OUTPUT_FOLDER, OUTPUT_FILENAME_PREFIX, READ_LENGTH, SEQ_SYS, VERBOSE)`. -/
def step4CallArgs (cfg : MainConfig) : List PyVal :=
  [.str cfg.outputFolder, .str cfg.outputNameStem, .nat cfg.readLength,
   .str cfg.seqSys, .bool cfg.verbose]

/-- A Python `TypeError` raised at argument binding, recording how many
required positional arguments are missing. -/
inductive PyCallError where
  | typeErrorMissingArgs (missing : Nat)
deriving DecidableEq

/-- Python positional-argument binding for a function whose parameters all
lack defaults: the call raises `TypeError` unless the counts agree. -/
def bindCallArgs (params : List String) (args : List PyVal) :
    Except PyCallError (List (String × PyVal)) :=
  if args.length = params.length then .ok (params.zip args)
  else .error (.typeErrorMissingArgs (params.length - args.length))

/-- STEP 4 of `__main__`: bind the call arguments of the `with art_illumina(...)`
line; only on success would `art.run` execute and the final R1/R2 files be
produced. -/
def mainStep4 (cfg : MainConfig) : Except PyCallError (List String) :=
  match bindCallArgs artIlluminaCtxParams (step4CallArgs cfg) with
  | .error e => .error e
  | .ok _ =>
    .ok [cfg.outputFolder ++ "/" ++ cfg.outputNameStem ++ "_R1.fastq",
         cfg.outputFolder ++ "/" ++ cfg.outputNameStem ++ "_R2.fastq"]

/-! ### Scoped temp cleanup (art_runner.py, lines 102-112) -/

/-- A file, as a pair of directory and file name. -/
abbrev FSFile := String × String

/-- Failures that the with-body of the `art_illumina` scope can raise. -/
inductive ScopeErr where
  | readGenerationFailed
  | shuffleFailed
deriving DecidableEq

/-- Whether a file is matched by `glob.glob(join(temp, "tmp.sms.*"))`: it
lives in the temp directory and its name starts with `tmp.sms.`. -/
def isTmpArtifact (temp : String) (f : FSFile) : Bool :=
  f.1 == temp && "tmp.sms.".isPrefixOf f.2

/-- The finally-clause loop `for tem in glob(...): os.remove(tem)`: returns
the remaining files and the removed files. -/
def cleanupTmp (temp : String) (fs : List FSFile) : List FSFile × List FSFile :=
  (fs.filter fun f => ! isTmpArtifact temp f, fs.filter (isTmpArtifact temp))

/-- The file-system state in which the finally-clause starts: the with-body
either completes with a state or raises carrying the state at the raise. -/
def bodyFinalFS (body : List FSFile → Except (ScopeErr × List FSFile) (List FSFile))
    (fs : List FSFile) : List FSFile :=
  match body fs with
  | .ok fs2 => fs2
  | .error (_, fs2) => fs2

/-- The `art_illumina` context manager: run the with-body, then run the
finally-clause cleanup on both the normal and the exceptional path. Returns
the outcome, the final file-system state, and the list of removed files. -/
def artIlluminaScopeRun (temp : String)
    (body : List FSFile → Except (ScopeErr × List FSFile) (List FSFile))
    (fs : List FSFile) : Except ScopeErr Unit × List FSFile × List FSFile :=
  match body fs with
  | .ok fs2 => (.ok (), (cleanupTmp temp fs2).1, (cleanupTmp temp fs2).2)
  | .error (e, fs2) => (.error e, (cleanupTmp temp fs2).1, (cleanupTmp temp fs2).2)

/-! ### The event trace of `ArtIllumina.run` (art_runner.py, lines 24-94) -/

/-- A 64-bit linear congruential step, standing in for the process-wide
pseudo-random stream (numpy's generator is outside the two source files). -/
def lcg (s : Nat) : Nat := (6364136223846793005 * s + 1442695040888963407) % 2 ^ 64

/-- The value of the draw `np.random.randint(2 ** 63)` at stream position
`i`: a nonnegative integer strictly below `2 ^ 63`. -/
def seedAt (stream : Nat → Nat) (i : Nat) : Nat := stream i % 2 ^ 63

/-- `os.path.basename` for slash-separated paths. -/
def basenameOf (p : String) : String := (p.splitOn "/").getLastD ""

/-- The short name `".".join(basename(a).split(".")[:-1])`. -/
def shortNameOf (p : String) : String :=
  String.intercalate "." ((basenameOf p).splitOn ".").dropLast

/-- The constructor state of `ArtIllumina` (run configuration). -/
structure RunCfg where
  outpath : String
  outputNameStem : String
  readLength : Nat
  seqSys : String
  verbose : Bool
  temp : String
  nreads : Nat
deriving DecidableEq

/-- The observable events of `ArtIllumina.run`: one `invoke` per
`run_once` call, one `keyGen` for the random-data file, and one `shuffle`
per `shuffle_fastq_file` call. -/
inductive RunEvent where
  | invoke (infile : String) (nReads : Nat) (outPre : String) (seed : Nat)
  | keyGen (path : String) (len : Nat)
  | shuffle (input : String) (output : String) (keyFile : String)
deriving DecidableEq

/-- The seed carried by an invocation event (0 for other events). -/
def eventSeed : RunEvent → Nat
  | .invoke _ _ _ s => s
  | _ => 0

/-- The read count carried by an invocation event (0 for other events). -/
def eventNReads : RunEvent → Nat
  | .invoke _ n _ _ => n
  | _ => 0

/-- Whether an event is a `run_once` invocation. -/
def isInvokeEvent : RunEvent → Bool
  | .invoke _ _ _ _ => true
  | _ => false

/-- Whether an event generates the random-data file. -/
def isKeyGenEvent : RunEvent → Bool
  | .keyGen _ _ => true
  | _ => false

/-- Whether an event is a shuffle call. -/
def isShuffleEvent : RunEvent → Bool
  | .shuffle _ _ _ => true
  | _ => false

/-- The output path `join(self.temp, "tmp.sms.") + short_name + "."` used
for one invocation. -/
def outPreFor (cfg : RunCfg) (a : String) : String :=
  cfg.temp ++ "/tmp.sms." ++ shortNameOf a ++ "."

/-- The loop `for a, n in zip(amplicons, n_reads)`: every pair produces one
`run_once` invocation, drawing the next seed from the stream immediately
before the call; no pair is skipped. -/
def invokeEventsGo (cfg : RunCfg) (stream : Nat → Nat) :
    Nat → List (String × Nat) → List RunEvent
  | _, [] => []
  | i, (a, n) :: rest =>
    .invoke a n (outPreFor cfg a) (seedAt stream i) :: invokeEventsGo cfg stream (i + 1) rest

/-- The invocation events of one `ArtIllumina.run` call. -/
def invokeEvents (cfg : RunCfg) (stream : Nat → Nat)
    (amplicons : List String) (nReads : List Nat) : List RunEvent :=
  invokeEventsGo cfg stream 0 (amplicons.zip nReads)

/-- The path of the shared random-data file. -/
def keyFilePath (cfg : RunCfg) : String := cfg.temp ++ "/tmp.sms.random_data"

/-- The length `max(5000000, int(2.5 * self.nreads))` of the random data
written for the shuffle; `int` truncates, so this is `⌊5 n / 2⌋`. -/
def keyLen (n : Nat) : Nat := max 5000000 (5 * n / 2)

/-- The whole event trace of `ArtIllumina.run`: the per-pair invocations,
then one random-data generation, then the two shuffle calls, both with the
same random-source file. -/
def runEvents (cfg : RunCfg) (stream : Nat → Nat)
    (amplicons : List String) (nReads : List Nat) : List RunEvent :=
  invokeEvents cfg stream amplicons nReads ++
  [.keyGen (keyFilePath cfg) (keyLen cfg.nreads),
   .shuffle (cfg.temp ++ "/tmp.sms.all_files_unshuffled1.fastq")
     (cfg.outpath ++ "/" ++ cfg.outputNameStem ++ "_R1.fastq") (keyFilePath cfg),
   .shuffle (cfg.temp ++ "/tmp.sms.all_files_unshuffled2.fastq")
     (cfg.outpath ++ "/" ++ cfg.outputNameStem ++ "_R2.fastq") (keyFilePath cfg)]

/-- A concrete run configuration used for concrete evaluations. -/
def cfg0 : RunCfg :=
  ⟨"out", "example", 250, "MSv3", false, "temp", 100⟩

/-- The concrete configuration with an odd read budget above 2,000,000. -/
def cfgBig : RunCfg :=
  ⟨"out", "example", 250, "MSv3", false, "temp", 2000001⟩

/-! ### Record-level semantics of `shuffle_fastq_file`
(art_runner.py, lines 97-100) -/

/-- Insertion of a value at a given position of a list. -/
def insertAt (x : Nat) : Nat → List Nat → List Nat
  | _, [] => [x]
  | 0, l => x :: l
  | p + 1, y :: l => y :: insertAt x p l

/-- Builder of the permutation drawn by `shuf --random-source`: values are
inserted one by one at pseudo-random positions driven by the key stream. -/
def shufPermGo : Nat → Nat → List Nat → List Nat
  | _, 0, acc => acc
  | s, i + 1, acc => shufPermGo (lcg s) i (insertAt i (s % (acc.length + 1)) acc)

/-- The permutation applied by `shuf` under a fixed random source: with the
random bytes and the line count fixed, the permutation is determined, and
it depends on nothing else. -/
def shufPerm (key n : Nat) : List Nat := shufPermGo key n []

/-- The character translation applied to a whole line. -/
def trRestoreLine (s : String) : String := s.map trRestoreChar

/-- The character translation applied to a 4-line FASTQ record. -/
def trRestoreRecord (r : List String) : List String := r.map trRestoreLine

/-- Record-level embedding of `shuffle_fastq_file`: `paste -s -d '\t\t\t\n'`
joins each 4-line record into one line, `shuf --random-source=key` permutes
those lines by `shufPerm key n`, and `tr '\t&' '\n/'` splits the records
back while mapping every ampersand to a slash. At record granularity this
is: permute the records, then apply the character translation to each. -/
def shuffle_fastq_file (key : Nat) (recs : List (List String)) : List (List String) :=
  ((shufPerm key recs.length).map fun j => recs.getD j []).map trRestoreRecord

/-- The pre-shuffle index from which output record `i` of a shuffled
`n`-record file originates. -/
def recordOrigin (key n i : Nat) : Option Nat := (shufPerm key n).get? i

/-! ### Read-count allocation (simulate_metagenome.py, lines 281-301)

The four sampler closures are produced by `read_model.get_amplicon_reads_sampler`,
which is not among the two source files; they are modelled from the spec
(section 4.2): genome-level draws are computed once per genome, cached under
the genome identity, and every per-row call only looks the cached draw up. -/

/-- A pseudo-random rational in `[0, 1)` derived from a stream state. -/
def unitInterval (s : Nat) : ℚ := ((s % 4294967296 : Nat) : ℚ) / 4294967296

/-- Inverse-CDF category selection: index of the first category whose
cumulative probability exceeds the uniform draw. -/
def pickCatRaw : List ℚ → ℚ → Nat
  | [], _ => 0
  | p :: rest, u => if u < p then 0 else pickCatRaw rest (u - p) + 1

/-- Category selection clamped into the category range. -/
def pickCat (probs : List ℚ) (u : ℚ) : Nat :=
  min (pickCatRaw probs u) (probs.length - 1)

/-- Increment of the count at one position of a tally list. -/
def bumpAt : List Nat → Nat → List Nat
  | [], _ => []
  | c :: cs, 0 => (c + 1) :: cs
  | c :: cs, j + 1 => c :: bumpAt cs j

/-- Modelled from the spec: the trial loop of a multinomial draw — each of
the remaining trials picks one category from the probability vector and
bumps its tally. -/
def multinomialGo (probs : List ℚ) : Nat → Nat → List Nat → List Nat
  | 0, _, acc => acc
  | t + 1, s, acc => multinomialGo probs t (lcg s) (bumpAt acc (pickCat probs (unitInterval s)))

/-- Modelled from the spec: `Multinomial(total, probs)` — one tally per
category, the tallies summing to `total`. -/
def multinomialDraw (seed total : Nat) (probs : List ℚ) : List Nat :=
  multinomialGo probs total seed (List.replicate probs.length 0)

/-- Positive pseudo-random magnitudes feeding a Dirichlet draw. -/
def dirichletNoise (s : Nat) : Nat → List ℚ
  | 0 => []
  | k + 1 => (((s % 1000) + 1 : Nat) : ℚ) :: dirichletNoise (lcg s) k

/-- Modelled from the spec: `Dirichlet(alphas)` — concentration-weighted
positive magnitudes, normalized to a probability vector. -/
def dirichletDraw (seed : Nat) (alphas : List ℚ) : List ℚ :=
  let raw := (alphas.zip (dirichletNoise seed alphas.length)).map fun p => p.1 * p.2
  raw.map fun v => v / raw.sum

/-- One genome of the allocation input: name, number of extracted
amplicons, normalized abundance. -/
structure GenomeSpec where
  name : String
  nAmplicons : Nat
  abundance : ℚ
deriving DecidableEq

/-- One row of `df_amplicons` as far as the allocation stage reads it. -/
structure AmpRow where
  ref : String
  ampliconNumber : Nat
  abundance : ℚ
deriving DecidableEq

/-- The amplicon table: one row per amplicon of each genome, carrying the
genome reference and abundance. -/
def ampliconTable (specs : List GenomeSpec) : List AmpRow :=
  specs.flatMap fun g => (List.range g.nAmplicons).map fun j => ⟨g.name, j, g.abundance⟩

/-- Modelled from the spec: the genome-level draws cached for one genome —
its multinomial read count, its Dirichlet amplicon-probability vector, and
its per-amplicon multinomial counts. -/
structure GenomeDraw where
  genomeNReads : Nat
  ampliconProb : List ℚ
  ampliconCounts : List Nat
deriving DecidableEq

/-- Modelled from the spec: the genome-level draws for one genome with read
budget `c` — `Dirichlet` over the amplicon hyperparameters (mode
`DIRICHLET_1`: one pseudocount per amplicon), then
`Multinomial(c, ampliconProb)`. -/
def genomeDrawFor (pc : Nat) (s : Nat) (g : GenomeSpec) (c : Nat) : GenomeDraw :=
  let probs := dirichletDraw s (List.replicate g.nAmplicons (pc : ℚ))
  ⟨c, probs, multinomialDraw (lcg s) c probs⟩

/-- Modelled from the spec: the per-genome cache, built once before any row
is processed — one entry per genome, keyed by the genome name. -/
def buildCacheGo (pc : Nat) : Nat → List (GenomeSpec × Nat) → List (String × GenomeDraw)
  | _, [] => []
  | s, (g, c) :: rest =>
    (g.name, genomeDrawFor pc s g c) :: buildCacheGo pc (lcg (lcg s)) rest

/-- Modelled from the spec: the single multinomial draw over all genomes,
`Multinomial(total_reads, abundance_vector)`. -/
def genomeCounts (seed total : Nat) (specs : List GenomeSpec) : List Nat :=
  multinomialDraw seed total (specs.map GenomeSpec.abundance)

/-- Modelled from the spec: the whole genome-keyed cache of one allocation
run. -/
def buildCache (seed total pc : Nat) (specs : List GenomeSpec) : List (String × GenomeDraw) :=
  buildCacheGo pc (lcg seed) (specs.zip (genomeCounts seed total specs))

/-- Lookup of the cached draw of a genome (the defaults are never hit for
genomes present in the cache). -/
def lookupDraw (cache : List (String × GenomeDraw)) (ref : String) : GenomeDraw :=
  ((cache.find? fun p => p.1 == ref).map Prod.snd).getD ⟨0, [], []⟩

/-- Modelled from the spec: the per-row closure filling `genome_n_reads` —
a pure lookup of the genome-level cached draw. -/
def genome_count_sampler (cache : List (String × GenomeDraw)) (row : AmpRow) : Nat :=
  (lookupDraw cache row.ref).genomeNReads

/-- Modelled from the spec: the per-row closure filling `amplicon_prob` —
a pure lookup of the genome-level cached Dirichlet vector. -/
def amplicon_probability_sampler (cache : List (String × GenomeDraw)) (row : AmpRow) : List ℚ :=
  (lookupDraw cache row.ref).ampliconProb

/-- Modelled from the spec: the per-row closure filling `n_reads` — the
entry of the genome's cached per-amplicon multinomial draw at this row's
amplicon number. -/
def amplicon_reads_sampler (cache : List (String × GenomeDraw)) (row : AmpRow) : Nat :=
  (lookupDraw cache row.ref).ampliconCounts.getD row.ampliconNumber 0

/-- Modelled from the spec: the per-row closure filling `hyperparameter` in
mode `DIRICHLET_1` — the pseudocount strength, a pure function of static
inputs. -/
def amplicon_hyperparameter_sampler (pc : Nat) (_row : AmpRow) : ℚ := (pc : ℚ)

/-- One fully filled row of the allocation table. -/
structure AllocationRecord where
  ref : String
  ampliconNumber : Nat
  abundance : ℚ
  totalNReads : Nat
  hyperparameter : ℚ
  genomeNReads : Nat
  ampliconProb : List ℚ
  nReads : Nat
deriving DecidableEq

/-- The allocation stage of `__main__`: build the genome-keyed cache once,
then fill every column of every row by the per-row `df.apply` closures. -/
def allocate (seed total pc : Nat) (specs : List GenomeSpec) : List AllocationRecord :=
  let cache := buildCache seed total pc specs
  (ampliconTable specs).map fun r =>
    ⟨r.ref, r.ampliconNumber, r.abundance, total, amplicon_hyperparameter_sampler pc r,
     genome_count_sampler cache r, amplicon_probability_sampler cache r,
     amplicon_reads_sampler cache r⟩

/-! ### Helper lemmas -/

/-- Division distributes over a list sum. -/
theorem sum_map_div (l : List ℚ) (t : ℚ) : (l.map fun x => x / t).sum = l.sum / t := by
  induction l with
  | nil => simp
  | cons a l ih => simp [ih, add_div]

/-- Normalization can only fail with `invalidAbundance`, and only on a
nonpositive total. -/
theorem normalizeAbundances_error (ab : List (String × ℚ)) (e : SimError)
    (h : normalizeAbundances ab = .error e) :
    e = SimError.invalidAbundance ∧ (ab.map Prod.snd).sum ≤ 0 := by
  simp only [normalizeAbundances] at h
  split_ifs at h with h1 h2
  cases h
  exact ⟨rfl, h2⟩

/-- On a nonpositive total, normalization fails with `invalidAbundance`. -/
theorem normalizeAbundances_nonpos (ab : List (String × ℚ))
    (h : (ab.map Prod.snd).sum ≤ 0) :
    normalizeAbundances ab = .error .invalidAbundance := by
  simp only [normalizeAbundances]
  have htol : (1 : ℚ) / 1000000000 < 1 := by norm_num
  have h1 : abundanceTol < |(ab.map Prod.snd).sum - 1| := by
    rw [abs_of_nonpos (by linarith)]
    unfold abundanceTol
    linarith
  rw [if_pos h1, if_pos h]

/-- On a positive total, normalization succeeds, rescaling exactly when the
total is farther than the tolerance from 1. -/
theorem normalizeAbundances_pos (ab : List (String × ℚ))
    (h : 0 < (ab.map Prod.snd).sum) :
    normalizeAbundances ab =
      .ok (if abundanceTol < |(ab.map Prod.snd).sum - 1|
           then ab.map fun p => (p.1, p.2 / (ab.map Prod.snd).sum) else ab) := by
  simp only [normalizeAbundances]
  by_cases h1 : abundanceTol < |(ab.map Prod.snd).sum - 1|
  · rw [if_pos h1, if_pos h1, if_neg (not_le.mpr h)]
  · rw [if_neg h1, if_neg h1]

/-- Every prefix of the invocation loop yields one event per remaining pair. -/
theorem invokeEventsGo_length (cfg : RunCfg) (stream : Nat → Nat)
    (l : List (String × Nat)) (i0 : Nat) :
    (invokeEventsGo cfg stream i0 l).length = l.length := by
  induction l generalizing i0 with
  | nil => rfl
  | cons p rest ih => simp [invokeEventsGo, ih]

/-- The event at position `i` of the invocation loop started at stream
position `i0` is the invocation of pair `i` with the seed drawn at stream
position `i0 + i`. -/
theorem invokeEventsGo_get (cfg : RunCfg) (stream : Nat → Nat)
    (l : List (String × Nat)) (i0 i : Nat) :
    (invokeEventsGo cfg stream i0 l).get? i =
      (l.get? i).map fun p =>
        .invoke p.1 p.2 (outPreFor cfg p.1) (seedAt stream (i0 + i)) := by
  induction l generalizing i0 i with
  | nil => simp [invokeEventsGo]
  | cons p rest ih =>
    cases i with
    | zero => simp [invokeEventsGo]
    | succ i =>
      simp only [invokeEventsGo, List.get?_cons_succ]
      rw [ih (i0 + 1) i, show i0 + 1 + i = i0 + (i + 1) from by omega]

/-- The invocation loop produces no key-generation event. -/
theorem invokeEventsGo_no_keyGen (cfg : RunCfg) (stream : Nat → Nat)
    (l : List (String × Nat)) (i0 : Nat) :
    (invokeEventsGo cfg stream i0 l).filter isKeyGenEvent = [] := by
  induction l generalizing i0 with
  | nil => rfl
  | cons p rest ih => simp [invokeEventsGo, isKeyGenEvent, ih]

/-- The invocation loop produces no shuffle event. -/
theorem invokeEventsGo_no_shuffle (cfg : RunCfg) (stream : Nat → Nat)
    (l : List (String × Nat)) (i0 : Nat) :
    (invokeEventsGo cfg stream i0 l).filter isShuffleEvent = [] := by
  induction l generalizing i0 with
  | nil => rfl
  | cons p rest ih => simp [invokeEventsGo, isShuffleEvent, ih]

/-! ### Claim theorems (C1, C4, C5, C7, C8, C9, C10) -/

/-- C1: for every configuration, STEP 4 binds five call arguments against
the seven required parameters of `art_illumina`, so the call raises a
`TypeError` (two required arguments missing) and the R1/R2 output list is
never produced. -/
theorem step4_call_arity_mismatch (cfg : MainConfig) :
    mainStep4 cfg = .error (.typeErrorMissingArgs 2) := rfl

/-- C4: normalization fails with `InvalidAbundance` exactly on abundance
mappings whose weight sum is nonpositive, the whole pipeline then fails
with that error, and the later stages (sampling, read generation) are
entered exactly when the weight sum is positive. -/
theorem abundance_invalid_iff_nonpositive (ab : List (String × ℚ))
    (rest : List (String × ℚ) → Except Unit Unit) :
    (normalizeAbundances ab = .error .invalidAbundance ↔ (ab.map Prod.snd).sum ≤ 0) ∧
    ((pipelineAfterNormalize ab rest).1 = .error .invalidAbundance ↔
      (ab.map Prod.snd).sum ≤ 0) ∧
    ((pipelineAfterNormalize ab rest).2 = true ↔ 0 < (ab.map Prod.snd).sum) := by
  rcases le_or_lt ((ab.map Prod.snd).sum) 0 with hs | hs
  · have hN := normalizeAbundances_nonpos ab hs
    have hp : pipelineAfterNormalize ab rest = (.error .invalidAbundance, false) := by
      unfold pipelineAfterNormalize
      rw [hN]
    rw [hp]
    refine ⟨⟨fun _ => hs, fun _ => hN⟩, by simp [hs], by simp [not_lt.mpr hs]⟩
  · have hN := normalizeAbundances_pos ab hs
    have hne : ¬ (ab.map Prod.snd).sum ≤ 0 := not_le.mpr hs
    have key1 : normalizeAbundances ab = .error .invalidAbundance ↔
        (ab.map Prod.snd).sum ≤ 0 :=
      ⟨fun h => absurd (normalizeAbundances_error ab _ h).2 hne, fun h => absurd h hne⟩
    cases hr : rest (if abundanceTol < |(ab.map Prod.snd).sum - 1|
        then ab.map fun p => (p.1, p.2 / (ab.map Prod.snd).sum) else ab) with
    | ok u =>
      have hp : pipelineAfterNormalize ab rest = (.ok (), true) := by
        unfold pipelineAfterNormalize
        rw [hN]
        simp only [hr]
      rw [hp]
      exact ⟨key1, by simp [hne], by simp [hs]⟩
    | error u =>
      have hp : pipelineAfterNormalize ab rest = (.error .laterStage, true) := by
        unfold pipelineAfterNormalize
        rw [hN]
        simp only [hr]
      rw [hp]
      exact ⟨key1, by simp [hne], by simp [hs]⟩

/-- C5: on a positive weight sum, normalization divides every weight by
the sum when the sum is farther than `1e-9` from 1 and keeps the mapping
unchanged otherwise; in both cases the resulting weights sum to 1 within
the `1e-9` tolerance. -/
theorem abundance_normalization_correct (ab : List (String × ℚ))
    (h : 0 < (ab.map Prod.snd).sum) :
    normalizeAbundances ab =
      .ok (if abundanceTol < |(ab.map Prod.snd).sum - 1|
           then ab.map fun p => (p.1, p.2 / (ab.map Prod.snd).sum) else ab) ∧
    |(((if abundanceTol < |(ab.map Prod.snd).sum - 1|
        then ab.map fun p => (p.1, p.2 / (ab.map Prod.snd).sum) else ab).map
          Prod.snd).sum) - 1| ≤ abundanceTol := by
  refine ⟨normalizeAbundances_pos ab h, ?_⟩
  split_ifs with h1
  · have hcomp : ((ab.map fun p => (p.1, p.2 / (ab.map Prod.snd).sum)).map Prod.snd) =
        ((ab.map Prod.snd).map fun x => x / (ab.map Prod.snd).sum) := by
      simp [List.map_map, Function.comp]
    rw [hcomp, sum_map_div, div_self (ne_of_gt h)]
    simp [abundanceTol]
  · exact not_lt.mp h1

/-- C5 witness: the spec scenario `{A: 2, B: 2}` (sum 4) is rescaled to
halves and the result sums to 1 within tolerance. -/
theorem abundance_normalization_correct_witness :
    (0 < (([("A", 2), ("B", 2)] : List (String × ℚ)).map Prod.snd).sum) ∧
    (normalizeAbundances [("A", 2), ("B", 2)] =
      .ok (if abundanceTol < |(([("A", 2), ("B", 2)] : List (String × ℚ)).map Prod.snd).sum - 1|
           then ([("A", 2), ("B", 2)] : List (String × ℚ)).map
             fun p => (p.1, p.2 / (([("A", 2), ("B", 2)] : List (String × ℚ)).map Prod.snd).sum)
           else [("A", 2), ("B", 2)]) ∧
    |(((if abundanceTol < |(([("A", 2), ("B", 2)] : List (String × ℚ)).map Prod.snd).sum - 1|
        then ([("A", 2), ("B", 2)] : List (String × ℚ)).map
          fun p => (p.1, p.2 / (([("A", 2), ("B", 2)] : List (String × ℚ)).map Prod.snd).sum)
        else [("A", 2), ("B", 2)]).map Prod.snd).sum) - 1| ≤ abundanceTol) :=
  ⟨by norm_num, abundance_normalization_correct [("A", 2), ("B", 2)] (by norm_num)⟩

/-- C7 counterexample: a pair with read count zero is not skipped — running
on the single pair `("a.fasta", 0)` produces exactly one event, and it is a
`run_once` invocation with read count 0 (after a seed draw). The claim that
zero-count pairs trigger no invocation is therefore false. -/
theorem zero_count_pair_still_invoked :
    (invokeEvents cfg0 (fun _ => 0) ["a.fasta"] [0]).map eventNReads = [0] ∧
    (invokeEvents cfg0 (fun _ => 0) ["a.fasta"] [0]).map isInvokeEvent = [true] := by
  exact ⟨rfl, rfl⟩

/-- C7 amended: every pair of the zipped input — whether its read count is
zero or positive — triggers exactly one read-generator invocation, in
order, each with a freshly drawn seed. -/
theorem every_pair_invoked_once (cfg : RunCfg) (stream : Nat → Nat)
    (amplicons : List String) (nReads : List Nat) (i : Nat) (a : String) (n : Nat)
    (h : (amplicons.zip nReads).get? i = some (a, n)) :
    (invokeEvents cfg stream amplicons nReads).length = (amplicons.zip nReads).length ∧
    (invokeEvents cfg stream amplicons nReads).get? i =
      some (.invoke a n (outPreFor cfg a) (seedAt stream i)) := by
  refine ⟨invokeEventsGo_length cfg stream _ 0, ?_⟩
  rw [invokeEvents, invokeEventsGo_get cfg stream _ 0 i, h]
  simp

/-- C7 amended witness: at the concrete input `("a.fasta", 0)` the zipped
pair at position 0 exists and yields exactly one invocation event. -/
theorem every_pair_invoked_once_witness :
    ((["a.fasta"].zip [0]).get? 0 = some ("a.fasta", 0)) ∧
    ((invokeEvents cfg0 (fun _ => 0) ["a.fasta"] [0]).length =
      (["a.fasta"].zip [0]).length ∧
    (invokeEvents cfg0 (fun _ => 0) ["a.fasta"] [0]).get? 0 =
      some (.invoke "a.fasta" 0 (outPreFor cfg0 "a.fasta") (seedAt (fun _ => 0) 0))) :=
  ⟨rfl, every_pair_invoked_once cfg0 (fun _ => 0) ["a.fasta"] [0] 0 "a.fasta" 0 rfl⟩

/-- C8 counterexample: seed values can repeat across invocations of one
run — under a stream that yields 42 twice, the two invocations receive the
same seed value, so the list of drawn seed values is not duplicate-free.
The claim that no seed value is ever reused across invocations is
therefore false. -/
theorem seed_value_reuse_possible :
    ¬ ((invokeEvents cfg0 (fun _ => 42) ["a.fa", "b.fa"] [1, 1]).map eventSeed).Nodup := by
  have he : (invokeEvents cfg0 (fun _ => 42) ["a.fa", "b.fa"] [1, 1]).map eventSeed
      = [42, 42] := rfl
  rw [he]
  decide

/-- C8 amended: every invocation draws one fresh seed from the single
process-wide stream — the `i`-th invocation consumes exactly stream
position `i`, so each drawn seed is consumed by exactly one invocation —
and every seed value is a nonnegative integer strictly below `2 ^ 63`;
value-level uniqueness across invocations, however, is not enforced. -/
theorem seed_draw_per_invocation (cfg : RunCfg) (stream : Nat → Nat)
    (amplicons : List String) (nReads : List Nat) (i : Nat) (ev : RunEvent)
    (h : (invokeEvents cfg stream amplicons nReads).get? i = some ev) :
    eventSeed ev = stream i % 2 ^ 63 ∧ eventSeed ev < 2 ^ 63 := by
  rw [invokeEvents, invokeEventsGo_get cfg stream _ 0 i] at h
  cases hp : (amplicons.zip nReads).get? i with
  | none => rw [hp] at h; cases h
  | some p =>
    rw [hp] at h
    cases h
    constructor
    · simp [eventSeed, seedAt]
    · simp only [eventSeed, seedAt]
      omega

/-- C8 amended witness: at a concrete run the invocation at position 0
carries the seed drawn at stream position 0, below `2 ^ 63`. -/
theorem seed_draw_per_invocation_witness :
    ((invokeEvents cfg0 (fun j => j + 5) ["a.fa"] [3]).get? 0 =
      some (.invoke "a.fa" 3 (outPreFor cfg0 "a.fa") (seedAt (fun j => j + 5) 0))) ∧
    (eventSeed (.invoke "a.fa" 3 (outPreFor cfg0 "a.fa") (seedAt (fun j => j + 5) 0)) =
      (fun j => j + 5) 0 % 2 ^ 63 ∧
    eventSeed (.invoke "a.fa" 3 (outPreFor cfg0 "a.fa") (seedAt (fun j => j + 5) 0)) < 2 ^ 63) :=
  ⟨rfl, seed_draw_per_invocation cfg0 (fun j => j + 5) ["a.fa"] [3] 0 _ rfl⟩

/-- C9 counterexample: at the odd read budget 2,000,001 the random data
has length `max(5000000, int(2.5 * 2000001)) = 5000002` characters, and
`2 * 5000002 < 5 * 2000001`, i.e. the length is strictly below
`2.5 × total_read_budget`; the claimed bound fails for this budget. -/
theorem key_length_below_claimed_bound :
    keyLen cfgBig.nreads = 5000002 ∧ 2 * keyLen cfgBig.nreads < 5 * cfgBig.nreads := by
  constructor <;> norm_num [keyLen, cfgBig]

/-- C9 amended: exactly one random character sequence is generated per run
and both mate shuffles use the same random-source file; its length is
`max(5000000, ⌊2.5 × total_read_budget⌋)`, which is at least 5,000,000 and
at least `2.5 × total_read_budget − 0.5` (the claimed
`≥ 2.5 × total_read_budget` holds only for even budgets). -/
theorem single_shared_key_and_length (cfg : RunCfg) (stream : Nat → Nat)
    (amplicons : List String) (nReads : List Nat) :
    ((runEvents cfg stream amplicons nReads).filter isKeyGenEvent).length = 1 ∧
    (runEvents cfg stream amplicons nReads).filter isShuffleEvent =
      [.shuffle (cfg.temp ++ "/tmp.sms.all_files_unshuffled1.fastq")
        (cfg.outpath ++ "/" ++ cfg.outputNameStem ++ "_R1.fastq") (keyFilePath cfg),
       .shuffle (cfg.temp ++ "/tmp.sms.all_files_unshuffled2.fastq")
        (cfg.outpath ++ "/" ++ cfg.outputNameStem ++ "_R2.fastq") (keyFilePath cfg)] ∧
    keyLen cfg.nreads = max 5000000 (5 * cfg.nreads / 2) ∧
    5000000 ≤ keyLen cfg.nreads ∧
    5 * cfg.nreads ≤ 2 * keyLen cfg.nreads + 1 := by
  refine ⟨?_, ?_, rfl, le_max_left _ _, ?_⟩
  · rw [runEvents, invokeEvents, List.filter_append, invokeEventsGo_no_keyGen]
    simp [isKeyGenEvent]
  · rw [runEvents, invokeEvents, List.filter_append, invokeEventsGo_no_shuffle]
    simp [isShuffleEvent]
  · have hle : 5 * cfg.nreads ≤ 2 * (5 * cfg.nreads / 2) + 1 := by omega
    have : 5 * cfg.nreads / 2 ≤ keyLen cfg.nreads := le_max_right _ _
    omega

/-- C10: the genome-splitting step escapes a space in a description to an
ampersand, and the shuffle step's translation maps every ampersand to a
slash; hence at every position holding a space the restored text holds a
slash, and the restored text differs from the original description — the
escape/restore round trip fails on every description containing a space. -/
theorem escape_restore_lossy_on_space (s : List Char) (i : Nat)
    (h : s.get? i = some ' ') :
    ((escapeDescription s).map trRestoreChar).get? i = some '/' ∧
    (escapeDescription s).map trRestoreChar ≠ s := by
  have h1 : ((escapeDescription s).map trRestoreChar).get? i = some '/' := by
    simp only [escapeDescription, List.get?_map, h, Option.map_some']
    rfl
  refine ⟨h1, fun he => ?_⟩
  rw [he] at h1
  rw [h] at h1
  exact absurd (Option.some.inj h1) (by decide)

/-- C10 witness: the description `"a b"` contains a space at position 1 and
the restored text holds a slash there, differing from the original. -/
theorem escape_restore_lossy_on_space_witness :
    (['a', ' ', 'b'].get? 1 = some ' ') ∧
    (((escapeDescription ['a', ' ', 'b']).map trRestoreChar).get? 1 = some '/' ∧
    (escapeDescription ['a', ' ', 'b']).map trRestoreChar ≠ ['a', ' ', 'b']) :=
  ⟨rfl, escape_restore_lossy_on_space ['a', ' ', 'b'] 1 rfl⟩

/-- C2: pairing preservation of the merge-and-shuffle step. Both mate
shuffles use the identical random-source file, so for equal-length
concatenated mate files the permutation drawn by `shuf` is the same; the
record at output position `i` of mate 1 and of mate 2 originate from the
same pre-shuffle record index, and each output record is the translated
input record at that index. -/
theorem shuffle_pairing_preserved (key : Nat) (in1 in2 : List (List String)) (i : Nat)
    (h : in1.length = in2.length) :
    recordOrigin key in1.length i = recordOrigin key in2.length i ∧
    (shuffle_fastq_file key in1).get? i =
      (recordOrigin key in1.length i).map (fun j => trRestoreRecord (in1.getD j [])) ∧
    (shuffle_fastq_file key in2).get? i =
      (recordOrigin key in2.length i).map (fun j => trRestoreRecord (in2.getD j [])) := by
  refine ⟨by rw [h], ?_, ?_⟩ <;>
    (simp [shuffle_fastq_file, recordOrigin, List.get?_map, Option.map_map]; rfl)

/-- C2 witness: two concrete equal-length one-record mate files at output
position 0 share their origin index. -/
theorem shuffle_pairing_preserved_witness :
    (([["@r/1", "ACGT", "+", "IIII"]] : List (List String)).length =
      ([["@r/2", "TGCA", "+", "IIII"]] : List (List String)).length) ∧
    (recordOrigin 7 ([["@r/1", "ACGT", "+", "IIII"]] : List (List String)).length 0 =
      recordOrigin 7 ([["@r/2", "TGCA", "+", "IIII"]] : List (List String)).length 0 ∧
    (shuffle_fastq_file 7 [["@r/1", "ACGT", "+", "IIII"]]).get? 0 =
      (recordOrigin 7 ([["@r/1", "ACGT", "+", "IIII"]] : List (List String)).length 0).map
        (fun j => trRestoreRecord (([["@r/1", "ACGT", "+", "IIII"]] :
          List (List String)).getD j [])) ∧
    (shuffle_fastq_file 7 [["@r/2", "TGCA", "+", "IIII"]]).get? 0 =
      (recordOrigin 7 ([["@r/2", "TGCA", "+", "IIII"]] : List (List String)).length 0).map
        (fun j => trRestoreRecord (([["@r/2", "TGCA", "+", "IIII"]] :
          List (List String)).getD j []))) :=
  ⟨rfl, shuffle_pairing_preserved 7 [["@r/1", "ACGT", "+", "IIII"]]
    [["@r/2", "TGCA", "+", "IIII"]] 0 rfl⟩

/-- C6: on every exit path of the `art_illumina` scope — normal completion
or any error raised by the with-body — the finally-clause removes every
file of the temp directory matching `tmp.sms.*`: none survives, the
removed list is exactly the matching files of the state the body left
behind, and each matching file is removed exactly as often as it occurs
(once, for distinct paths) while no other file is removed. -/
theorem art_scope_cleanup_all_paths (temp : String)
    (body : List FSFile → Except (ScopeErr × List FSFile) (List FSFile)) (fs : List FSFile) :
    ((artIlluminaScopeRun temp body fs).2.1).filter (isTmpArtifact temp) = [] ∧
    (artIlluminaScopeRun temp body fs).2.2 =
      (bodyFinalFS body fs).filter (isTmpArtifact temp) ∧
    ∀ f : FSFile, ((artIlluminaScopeRun temp body fs).2.2).count f =
      if isTmpArtifact temp f then (bodyFinalFS body fs).count f else 0 := by
  have main : ∀ l : List FSFile,
      ((l.filter fun f => ! isTmpArtifact temp f).filter (isTmpArtifact temp) = []) ∧
      (∀ f : FSFile, (l.filter (isTmpArtifact temp)).count f =
        if isTmpArtifact temp f then l.count f else 0) := by
    intro l
    constructor
    · rw [List.filter_filter]
      simp
    · intro f
      by_cases hf : isTmpArtifact temp f
      · rw [if_pos hf, List.count_filter hf]
      · rw [if_neg hf]
        refine List.count_eq_zero.mpr fun hm => ?_
        exact hf (List.of_mem_filter hm)
  cases hb : body fs with
  | ok fs2 =>
    have e1 : artIlluminaScopeRun temp body fs =
        (.ok (), fs2.filter fun f => ! isTmpArtifact temp f,
          fs2.filter (isTmpArtifact temp)) := by
      simp only [artIlluminaScopeRun, cleanupTmp, hb]
    have e2 : bodyFinalFS body fs = fs2 := by
      simp only [bodyFinalFS, hb]
    rw [e1, e2]
    exact ⟨(main fs2).1, rfl, (main fs2).2⟩
  | error p =>
    obtain ⟨e, fs2⟩ := p
    have e1 : artIlluminaScopeRun temp body fs =
        (.error e, fs2.filter fun f => ! isTmpArtifact temp f,
          fs2.filter (isTmpArtifact temp)) := by
      simp only [artIlluminaScopeRun, cleanupTmp, hb]
    have e2 : bodyFinalFS body fs = fs2 := by
      simp only [bodyFinalFS, hb]
    rw [e1, e2]
    exact ⟨(main fs2).1, rfl, (main fs2).2⟩

/-! ### Helper lemmas for the allocation stage -/

/-- Category selection always lands inside a nonempty category range. -/
theorem pickCat_lt (probs : List ℚ) (u : ℚ) (h : probs ≠ []) :
    pickCat probs u < probs.length := by
  have hl : 0 < probs.length := List.length_pos.mpr h
  have hmin : min (pickCatRaw probs u) (probs.length - 1) ≤ probs.length - 1 :=
    min_le_right _ _
  unfold pickCat
  omega

/-- Bumping a tally preserves its length. -/
theorem bumpAt_length (l : List Nat) (j : Nat) : (bumpAt l j).length = l.length := by
  induction l generalizing j with
  | nil => rfl
  | cons c cs ih =>
    cases j with
    | zero => rfl
    | succ j => simp [bumpAt, ih]

/-- Bumping a tally at an in-range position increments its sum by one. -/
theorem bumpAt_sum (l : List Nat) (j : Nat) (h : j < l.length) :
    (bumpAt l j).sum = l.sum + 1 := by
  induction l generalizing j with
  | nil => simp at h
  | cons c cs ih =>
    cases j with
    | zero => simp only [bumpAt, List.sum_cons]; omega
    | succ j =>
      simp only [bumpAt, List.sum_cons]
      rw [ih j (by simpa using h)]
      omega

/-- The trial loop adds exactly one tally per trial. -/
theorem multinomialGo_sum (probs : List ℚ) (hp : probs ≠ []) (t : Nat) :
    ∀ (s : Nat) (acc : List Nat), acc.length = probs.length →
      (multinomialGo probs t s acc).sum = acc.sum + t := by
  induction t with
  | zero => intro s acc _; simp [multinomialGo]
  | succ t ih =>
    intro s acc h
    simp only [multinomialGo]
    rw [ih (lcg s) _ (by rw [bumpAt_length, h])]
    rw [bumpAt_sum acc _ (by rw [h]; exact pickCat_lt probs _ hp)]
    omega

/-- The trial loop preserves the tally length. -/
theorem multinomialGo_length (probs : List ℚ) (t : Nat) :
    ∀ (s : Nat) (acc : List Nat), (multinomialGo probs t s acc).length = acc.length := by
  induction t with
  | zero => intro s acc; rfl
  | succ t ih =>
    intro s acc
    simp only [multinomialGo]
    rw [ih, bumpAt_length]

/-- A multinomial draw has one tally per category. -/
theorem multinomialDraw_length (seed total : Nat) (probs : List ℚ) :
    (multinomialDraw seed total probs).length = probs.length := by
  rw [multinomialDraw, multinomialGo_length]
  simp

/-- A multinomial draw over a nonempty category set distributes the whole
total: the tallies sum to `total` exactly. -/
theorem multinomialDraw_sum (seed total : Nat) (probs : List ℚ) (hp : probs ≠ []) :
    (multinomialDraw seed total probs).sum = total := by
  rw [multinomialDraw, multinomialGo_sum probs hp total seed _ (by simp)]
  simp

/-- The Dirichlet noise stream has the requested length. -/
theorem dirichletNoise_length (s k : Nat) : (dirichletNoise s k).length = k := by
  induction k generalizing s with
  | zero => rfl
  | succ k ih => simp [dirichletNoise, ih]

/-- A Dirichlet draw has one probability per concentration entry. -/
theorem dirichletDraw_length (seed : Nat) (alphas : List ℚ) :
    (dirichletDraw seed alphas).length = alphas.length := by
  simp [dirichletDraw, dirichletNoise_length]

/-- A genome's cached per-amplicon counts have one entry per amplicon. -/
theorem genomeDrawFor_counts_length (pc s : Nat) (g : GenomeSpec) (c : Nat) :
    (genomeDrawFor pc s g c).ampliconCounts.length = g.nAmplicons := by
  simp [genomeDrawFor, multinomialDraw_length, dirichletDraw_length]

/-- A genome's cached per-amplicon counts sum to its cached read count. -/
theorem genomeDrawFor_counts_sum (pc s : Nat) (g : GenomeSpec) (c : Nat)
    (hk : 0 < g.nAmplicons) :
    (genomeDrawFor pc s g c).ampliconCounts.sum = c := by
  have hlen : (dirichletDraw s (List.replicate g.nAmplicons (pc : ℚ))).length =
      g.nAmplicons := by
    simp [dirichletDraw_length]
  simp only [genomeDrawFor]
  exact multinomialDraw_sum _ _ _ (List.ne_nil_of_length_pos (by rw [hlen]; exact hk))

/-- Lookup hits a cache head whose key matches. -/
theorem lookupDraw_cons_eq (nm : String) (d : GenomeDraw)
    (rest : List (String × GenomeDraw)) :
    lookupDraw ((nm, d) :: rest) nm = d := by
  simp [lookupDraw, List.find?_cons_of_pos]

/-- Lookup skips a cache head whose key does not match. -/
theorem lookupDraw_cons_ne (nm : String) (d : GenomeDraw)
    (rest : List (String × GenomeDraw)) (ref : String) (h : ¬ nm = ref) :
    lookupDraw ((nm, d) :: rest) ref = lookupDraw rest ref := by
  simp only [lookupDraw]
  rw [List.find?_cons_of_neg _ (by simp [h])]

/-- In a cache built from pairs with pairwise distinct genome names, the
lookup of a listed genome returns the genome-level draw built for exactly
that genome and its multinomial read count. -/
theorem lookupDraw_buildCacheGo (pc : Nat) (l : List (GenomeSpec × Nat)) (g : GenomeSpec)
    (c : Nat) (hnd : (l.map fun p => p.1.name).Nodup) (hm : (g, c) ∈ l) (s : Nat) :
    ∃ s2, lookupDraw (buildCacheGo pc s l) g.name = genomeDrawFor pc s2 g c := by
  induction l generalizing s with
  | nil => cases hm
  | cons hd tl ih =>
    obtain ⟨g0, c0⟩ := hd
    simp only [List.map_cons, List.nodup_cons] at hnd
    rcases List.mem_cons.mp hm with heq | hmem
    · have h1 : g = g0 := congrArg Prod.fst heq
      have h2 : c = c0 := congrArg Prod.snd heq
      subst h1
      subst h2
      exact ⟨s, by simp only [buildCacheGo]; exact lookupDraw_cons_eq _ _ _⟩
    · have hne : ¬ g0.name = g.name := by
        intro he
        exact hnd.1 (he ▸ List.mem_map.mpr ⟨(g, c), hmem, rfl⟩)
      obtain ⟨s2, h2⟩ := ih hnd.2 hmem (lcg (lcg s))
      refine ⟨s2, ?_⟩
      simp only [buildCacheGo]
      rw [lookupDraw_cons_ne _ _ _ _ hne]
      exact h2

/-- The rows of genomes whose name differs from `gname` are all filtered
away. -/
theorem table_filter_not_mem (specs : List GenomeSpec) (gname : String)
    (h : gname ∉ specs.map GenomeSpec.name) :
    (ampliconTable specs).filter (fun r => r.ref == gname) = [] := by
  induction specs with
  | nil => rfl
  | cons g0 tl ih =>
    simp only [List.map_cons, List.mem_cons, not_or] at h
    have hrows : ((List.range g0.nAmplicons).map fun j =>
        (⟨g0.name, j, g0.abundance⟩ : AmpRow)).filter (fun r => r.ref == gname) = [] := by
      rw [List.filter_eq_nil_iff]
      intro a ha
      obtain ⟨j, _, rfl⟩ := List.mem_map.mp ha
      simp
      exact fun he => h.1 he.symm
    simp only [ampliconTable, List.flatMap_cons, List.filter_append]
    rw [hrows]
    simpa [ampliconTable] using ih h.2

/-- With pairwise distinct genome names, the rows of the amplicon table
whose reference equals a listed genome's name are exactly that genome's
rows: its amplicon numbers `0, …, nAmplicons − 1` in order. -/
theorem table_filter_mem (specs : List GenomeSpec) (g : GenomeSpec)
    (hnd : (specs.map GenomeSpec.name).Nodup) (hg : g ∈ specs) :
    (ampliconTable specs).filter (fun r => r.ref == g.name) =
      (List.range g.nAmplicons).map fun j => ⟨g.name, j, g.abundance⟩ := by
  induction specs with
  | nil => cases hg
  | cons g0 tl ih =>
    simp only [List.map_cons, List.nodup_cons] at hnd
    rcases List.mem_cons.mp hg with heq | hmem
    · subst heq
      have hrows : ((List.range g.nAmplicons).map fun j =>
          (⟨g.name, j, g.abundance⟩ : AmpRow)).filter (fun r => r.ref == g.name) =
          (List.range g.nAmplicons).map fun j => (⟨g.name, j, g.abundance⟩ : AmpRow) := by
        rw [List.filter_eq_self]
        intro a ha
        obtain ⟨j, _, rfl⟩ := List.mem_map.mp ha
        simp
      have htl : (ampliconTable tl).filter (fun r => r.ref == g.name) = [] :=
        table_filter_not_mem tl g.name hnd.1
      simp only [ampliconTable, List.flatMap_cons, List.filter_append]
      rw [hrows]
      have htl2 : (tl.flatMap fun g2 => (List.range g2.nAmplicons).map
          fun j => (⟨g2.name, j, g2.abundance⟩ : AmpRow)).filter
          (fun r => r.ref == g.name) = [] := htl
      rw [htl2, List.append_nil]
    · have hne : ¬ g0.name = g.name := by
        intro he
        exact hnd.1 (he ▸ List.mem_map.mpr ⟨g, hmem, rfl⟩)
      have hrows : ((List.range g0.nAmplicons).map fun j =>
          (⟨g0.name, j, g0.abundance⟩ : AmpRow)).filter (fun r => r.ref == g.name) = [] := by
        rw [List.filter_eq_nil_iff]
        intro a ha
        obtain ⟨j, _, rfl⟩ := List.mem_map.mp ha
        simp [hne]
      simp only [ampliconTable, List.flatMap_cons, List.filter_append]
      rw [hrows]
      simpa [ampliconTable] using ih hnd.2 hmem

/-- Every member of the first list of a zip with an at-least-as-long second
list appears in the zip with some partner. -/
theorem mem_zip_of_mem_left (l1 : List GenomeSpec) (l2 : List Nat)
    (hlen : l1.length ≤ l2.length) (g : GenomeSpec) (hg : g ∈ l1) :
    ∃ c, (g, c) ∈ l1.zip l2 := by
  induction l1 generalizing l2 with
  | nil => cases hg
  | cons h0 tl ih =>
    cases l2 with
    | nil => simp at hlen
    | cons c0 ctl =>
      rcases List.mem_cons.mp hg with heq | hmem
      · exact ⟨c0, by simp [heq]⟩
      · obtain ⟨c, hc⟩ := ih ctl (by simpa using hlen) hmem
        exact ⟨c, by simp [hc]⟩

/-- Summing a list by indexing over its positions gives its sum. -/
theorem sum_getD_range (counts : List Nat) :
    ((List.range counts.length).map fun j => counts.getD j 0).sum = counts.sum := by
  induction counts with
  | nil => rfl
  | cons c cs ih =>
    rw [List.length_cons, List.range_succ_eq_map, List.map_cons, List.map_map,
      List.sum_cons, List.getD_cons_zero]
    have hmap : ((fun j => (c :: cs).getD j 0) ∘ Nat.succ) = fun j => cs.getD j 0 := by
      funext j
      rfl
    rw [hmap, ih, List.sum_cons]

/-- Every allocation record's genome-level columns are pure lookups of the
cached draw of its own genome reference. -/
theorem allocate_fields (seed total pc : Nat) (specs : List GenomeSpec)
    (rec : AllocationRecord) (h : rec ∈ allocate seed total pc specs) :
    rec.genomeNReads =
      (lookupDraw (buildCache seed total pc specs) rec.ref).genomeNReads ∧
    rec.ampliconProb =
      (lookupDraw (buildCache seed total pc specs) rec.ref).ampliconProb := by
  simp only [allocate, List.mem_map] at h
  obtain ⟨r, _, rfl⟩ := h
  exact ⟨rfl, rfl⟩

/-- C3 (spec-modelled samplers): with pairwise distinct genome names, every
amplicon row of a genome observes the same `genome_n_reads` value and the
same Dirichlet probability vector — both are computed once per genome,
cached under the genome name, and only looked up per row — and the sum of
the per-amplicon `n_reads` values over a genome's rows equals that genome's
cached `genome_n_reads` exactly. -/
theorem allocation_genome_draw_consistency (seed total pc : Nat)
    (specs : List GenomeSpec) (g : GenomeSpec)
    (hnd : (specs.map GenomeSpec.name).Nodup) (hg : g ∈ specs)
    (hk : 0 < g.nAmplicons) :
    (∀ r1 ∈ allocate seed total pc specs, ∀ r2 ∈ allocate seed total pc specs,
      r1.ref = g.name → r2.ref = g.name →
      r1.genomeNReads = r2.genomeNReads ∧ r1.ampliconProb = r2.ampliconProb) ∧
    (((allocate seed total pc specs).filter fun r => r.ref == g.name).map
        AllocationRecord.nReads).sum =
      (lookupDraw (buildCache seed total pc specs) g.name).genomeNReads := by
  constructor
  · intro r1 h1 r2 h2 e1 e2
    obtain ⟨a1, b1⟩ := allocate_fields seed total pc specs r1 h1
    obtain ⟨a2, b2⟩ := allocate_fields seed total pc specs r2 h2
    rw [a1, a2, b1, b2, e1, e2]
    exact ⟨rfl, rfl⟩
  · have hpred : ((fun r : AllocationRecord => r.ref == g.name) ∘
        (fun r : AmpRow =>
          (⟨r.ref, r.ampliconNumber, r.abundance, total,
            amplicon_hyperparameter_sampler pc r,
            genome_count_sampler (buildCache seed total pc specs) r,
            amplicon_probability_sampler (buildCache seed total pc specs) r,
            amplicon_reads_sampler (buildCache seed total pc specs) r⟩ :
              AllocationRecord))) =
        fun r : AmpRow => r.ref == g.name := rfl
    have happly : (((allocate seed total pc specs).filter fun r => r.ref == g.name).map
        AllocationRecord.nReads) =
        (List.range g.nAmplicons).map fun j =>
          (lookupDraw (buildCache seed total pc specs) g.name).ampliconCounts.getD j 0 := by
      simp only [allocate]
      rw [List.filter_map _ _, hpred, table_filter_mem specs g hnd hg]
      simp only [List.map_map]
      rfl
    rw [happly]
    have hlen : (genomeCounts seed total specs).length = specs.length := by
      simp [genomeCounts, multinomialDraw_length]
    obtain ⟨c, hc⟩ := mem_zip_of_mem_left specs (genomeCounts seed total specs)
      (le_of_eq hlen.symm) g hg
    have hndz : ((specs.zip (genomeCounts seed total specs)).map fun p => p.1.name).Nodup := by
      have hfst : (specs.zip (genomeCounts seed total specs)).map Prod.fst = specs :=
        List.map_fst_zip _ _ (le_of_eq hlen.symm)
      have hmm : ((specs.zip (genomeCounts seed total specs)).map fun p => p.1.name) =
          ((specs.zip (genomeCounts seed total specs)).map Prod.fst).map GenomeSpec.name := by
        rw [List.map_map]
        rfl
      rw [hmm, hfst]
      exact hnd
    obtain ⟨s2, hlook⟩ := lookupDraw_buildCacheGo pc _ g c hndz hc (lcg seed)
    have hlook2 : lookupDraw (buildCache seed total pc specs) g.name =
        genomeDrawFor pc s2 g c := hlook
    rw [hlook2]
    have hclen : (genomeDrawFor pc s2 g c).ampliconCounts.length = g.nAmplicons :=
      genomeDrawFor_counts_length pc s2 g c
    rw [show List.range g.nAmplicons =
      List.range (genomeDrawFor pc s2 g c).ampliconCounts.length from by rw [hclen]]
    rw [sum_getD_range, genomeDrawFor_counts_sum pc s2 g c hk]
    rfl

/-- C3 witness: the one-genome, one-amplicon instance with budget 2 —
names are duplicate-free, the genome is listed with one amplicon, and the
consistency and sum properties hold. -/
theorem allocation_genome_draw_consistency_witness :
    ((([⟨"A", 1, 1⟩] : List GenomeSpec).map GenomeSpec.name).Nodup) ∧
    ((⟨"A", 1, 1⟩ : GenomeSpec) ∈ ([⟨"A", 1, 1⟩] : List GenomeSpec)) ∧
    (0 < (⟨"A", 1, 1⟩ : GenomeSpec).nAmplicons) ∧
    ((∀ r1 ∈ allocate 0 2 1 ([⟨"A", 1, 1⟩] : List GenomeSpec),
        ∀ r2 ∈ allocate 0 2 1 ([⟨"A", 1, 1⟩] : List GenomeSpec),
        r1.ref = (⟨"A", 1, 1⟩ : GenomeSpec).name →
        r2.ref = (⟨"A", 1, 1⟩ : GenomeSpec).name →
        r1.genomeNReads = r2.genomeNReads ∧ r1.ampliconProb = r2.ampliconProb) ∧
      (((allocate 0 2 1 ([⟨"A", 1, 1⟩] : List GenomeSpec)).filter
          fun r => r.ref == (⟨"A", 1, 1⟩ : GenomeSpec).name).map
            AllocationRecord.nReads).sum =
        (lookupDraw (buildCache 0 2 1 ([⟨"A", 1, 1⟩] : List GenomeSpec))
          (⟨"A", 1, 1⟩ : GenomeSpec).name).genomeNReads) :=
  ⟨by simp, by simp, by decide,
    allocation_genome_draw_consistency 0 2 1 [⟨"A", 1, 1⟩] ⟨"A", 1, 1⟩
      (by simp) (by simp) (by decide)⟩

end Swampy
